import Mathlib

/-!
Shallow embedding of the MicroEJ Event-Queue abstraction layer over ThreadX
(`src/main/c/src/LLEVENT_impl.c`), and proofs of the specification claims.

The ThreadX word queue (`tx_queue_send` / `tx_queue_receive` on a bounded
FIFO of 32-bit words) and the static variables of `LLEVENT_impl.c` are
gathered in one explicit state record.  The SNI runtime calls are modelled
at their interface boundary: `SNI_resumeJavaThread` is recorded as a
`resumed` flag in the producer's output, `SNI_throwNativeIOException`
(exception pending) is rendered as an `Option` result, and the outcome of
`SNI_suspendCurrentJavaThreadWithCallback` is an explicit boolean input of
`wait_event`.  `uint32_t` arithmetic is `Nat` with `% 2^32` where the C
increments or subtracts; `jbyte`/`jshort` results are returned as their
unsigned bit patterns (`Nat < 2^8`, `< 2^16`).
-/

set_option maxHeartbeats 1000000

namespace LLEvent

/-- Modulus of `uint32_t` arithmetic, 2^32. -/
def U32 : Nat := 4294967296

/-- State of the module: the ThreadX event queue (head of `queue` is the next
word to dequeue, `capacity` is the queue size in words) together with the
static variables of `LLEVENT_impl.c`.  `waiting_receive_java_thread_id = -1`
encodes `SNI_ERROR` (no parked consumer); `offset_buffer_extended_data = -1`
encodes an empty word buffer. -/
structure EvState where
  capacity : Nat
  queue : List Nat
  waiting_receive_java_thread_id : Int
  data_length_extended_data : Nat
  offset_extended_data_read : Nat
  buffer_extended_data : Nat
  offset_buffer_extended_data : Int
  first_long_value : Nat
  skip_bytes_counter : Nat
  data_alignment : Nat
  deriving Repr, DecidableEq

/-- Post-state of a producer call: the returned boolean, whether
`SNI_resumeJavaThread` was invoked, and the new state. -/
structure OfferOut where
  ok : Bool
  resumed : Bool
  st : EvState
  deriving Repr, DecidableEq

/-- ThreadX `tx_queue_send` with `TX_NO_WAIT`: succeeds iff a message slot is
free; the sent word is truncated to 32 bits. -/
def tx_queue_send (st : EvState) (w : Nat) : Bool × EvState :=
  if st.queue.length < st.capacity then
    (true, { st with queue := st.queue ++ [w % U32] })
  else
    (false, st)

/-- State after `LLEVENT_IMPL_initialize` on a fresh system (queue created
empty; all static variables as initialized or zero-initialized). -/
def initState (capacity : Nat) : EvState :=
  { capacity := capacity
    queue := []
    waiting_receive_java_thread_id := -1
    data_length_extended_data := 0
    offset_extended_data_read := 0
    buffer_extended_data := 0
    offset_buffer_extended_data := -1
    first_long_value := 0
    skip_bytes_counter := 0
    data_alignment := 0 }

/-- `LLEVENT_IMPL_offer_event`: encode `((type << 24) | data) & 0x7FFFFFFF`,
single non-blocking enqueue, then resume the parked consumer only if one is
registered and the enqueue succeeded (clearing the slot either way the resume
itself turns out). -/
def LLEVENT_IMPL_offer_event (st : EvState) (ty data : Nat) : OfferOut :=
  let event_message := ((ty <<< 24) ||| data) &&& 0x7FFFFFFF
  let r := tx_queue_send st event_message
  if r.2.waiting_receive_java_thread_id ≠ -1 ∧ r.1 = true then
    { ok := r.1, resumed := true,
      st := { r.2 with waiting_receive_java_thread_id := -1 } }
  else
    { ok := r.1, resumed := false, st := r.2 }

/-- Payload word count of an extended event:
`(int)ceil(data_length / (double)sizeof(int))`, exact for `data_length < 2^24`. -/
def ceil_div4 (n : Nat) : Nat := (n + 3) / 4

/-- Native little-endian packing of four bytes into one 32-bit word, as done
by reading the producer's byte buffer through an `int32_t` pointer. -/
def packWord (b0 b1 b2 b3 : Nat) : Nat :=
  b0 % 256 + 256 * (b1 % 256) + 65536 * (b2 % 256) + 16777216 * (b3 % 256)

/-- The words the producer's send loop reads from the data buffer: word `i` is
the packing of bytes `4i..4i+3`; bytes past the end of the buffer are the
unspecified trailing fill of the last word (modelled as 0). -/
def eventWords : Nat → List Nat → List Nat
  | 0, _ => []
  | n + 1, data =>
    packWord (data.getD 0 0) (data.getD 1 0) (data.getD 2 0) (data.getD 3 0) ::
      eventWords n (data.drop 4)

/-- The word sequence of a whole byte blob: `ceil(len/4)` packed words. -/
def packWords (data : List Nat) : List Nat :=
  eventWords (ceil_div4 data.length) data

/-- The producer's payload send loop: sends every word, accumulating failure
but not stopping early (as the C `for` loop does). -/
def sendWords : EvState → List Nat → Bool → Bool × EvState
  | st, [], ok => (ok, st)
  | st, w :: ws, ok =>
    let r := tx_queue_send st w
    sendWords r.2 ws (ok && r.1)

/-- `LLEVENT_IMPL_offer_extended_event`: header word
`(1 << 31) | (type << 24) | data_length`, capacity pre-check against
`ceil(len/4) + 1` words, header + payload enqueue, then an unconditional
resume of the parked consumer whenever one is registered (the C code does
not test `offer_status` here, unlike `offer_event`). -/
def LLEVENT_IMPL_offer_extended_event (st : EvState) (ty : Nat) (data : List Nat)
    (data_length : Nat) : OfferOut :=
  let event_message := ((1 <<< 31) ||| (ty <<< 24)) ||| data_length
  let data_length_int := ceil_div4 data_length
  let available_storage := st.capacity - st.queue.length
  let r1 : Bool × EvState :=
    if available_storage < data_length_int + 1 then (false, st)
    else tx_queue_send st event_message
  let r2 : Bool × EvState :=
    if r1.1 = true then sendWords r1.2 (eventWords data_length_int data) true
    else r1
  if r2.2.waiting_receive_java_thread_id ≠ -1 then
    { ok := r1.1 && r2.1, resumed := true,
      st := { r2.2 with waiting_receive_java_thread_id := -1 } }
  else
    { ok := r1.1 && r2.1, resumed := false, st := r2.2 }

/-- `LLEVENT_IMPL_wait_event`: register the calling thread as parked waiter,
try a non-blocking dequeue; on success clear the slot and return the word.
On an empty queue, `suspend_fails` is the outcome of
`SNI_suspendCurrentJavaThreadWithCallback`: if it reports an error the slot
is cleared and the zero word returned; otherwise the thread is suspended
(`none`) and re-enters this function when resumed. -/
def LLEVENT_IMPL_wait_event (st : EvState) (tid : Int) (suspend_fails : Bool) :
    Option Nat × EvState :=
  let st1 := { st with waiting_receive_java_thread_id := tid }
  match st1.queue with
  | w :: rest =>
    (some w, { st1 with queue := rest, waiting_receive_java_thread_id := -1 })
  | [] =>
    if suspend_fails then
      (some 0, { st1 with waiting_receive_java_thread_id := -1 })
    else
      (none, st1)

/-- `LLEVENT_IMPL_start_read_extended_data`. -/
def LLEVENT_IMPL_start_read_extended_data (st : EvState) (data_length : Nat) :
    EvState :=
  { st with data_length_extended_data := data_length % U32
            offset_extended_data_read := 0
            data_alignment := 1 }

/-- `LLEVENT_IMPL_available`: `uint32_t` subtraction
`data_length_extended_data - offset_extended_data_read` (wraps modulo 2^32). -/
def LLEVENT_IMPL_available (st : EvState) : Nat :=
  (st.data_length_extended_data + U32 - st.offset_extended_data_read) % U32

/-- Byte one (least significant) of a buffered word: `buffer & 0x000000FF`. -/
def byteOne (w : Nat) : Nat := w &&& 0xFF

/-- Byte two of a buffered word: `(buffer & 0x0000FF00) >> 8`. -/
def byteTwo (w : Nat) : Nat := (w &&& 0xFF00) >>> 8

/-- Byte three of a buffered word: `(buffer & 0x00FF0000) >> 16`. -/
def byteThree (w : Nat) : Nat := (w &&& 0xFF0000) >>> 16

/-- Byte four (most significant) of a buffered word: `(buffer & 0xFF000000) >> 24`. -/
def byteFour (w : Nat) : Nat := (w &&& 0xFF000000) >>> 24

/-- Low half-word of a buffered word: `buffer & 0x0000FFFF`. -/
def shortOne (w : Nat) : Nat := w &&& 0xFFFF

/-- High half-word of a buffered word: `(buffer & 0xFFFF0000) >> 16`. -/
def shortTwo (w : Nat) : Nat := (w &&& 0xFFFF0000) >>> 16

/-- Tail of `read_one_byte` once the word buffer is known to hold data:
select the byte at the cursor, advance cursor and read offset. -/
def extract_byte (st : EvState) : Option Nat × EvState :=
  let b :=
    if st.offset_buffer_extended_data = 0 then byteOne st.buffer_extended_data
    else if st.offset_buffer_extended_data = 1 then byteTwo st.buffer_extended_data
    else if st.offset_buffer_extended_data = 2 then byteThree st.buffer_extended_data
    else byteFour st.buffer_extended_data
  (some b,
    { st with offset_buffer_extended_data := st.offset_buffer_extended_data + 1
              offset_extended_data_read := (st.offset_extended_data_read + 1) % U32 })

/-- `read_one_byte`: underflow check against `available()`, refill of the word
buffer from the queue when empty or exhausted (toggling the alignment phase),
then byte extraction.  `none` stands for a pending `NativeIOException`. -/
def read_one_byte (st : EvState) : Option Nat × EvState :=
  if LLEVENT_IMPL_available st < 1 then (none, st)
  else if st.offset_buffer_extended_data = -1 ∨ st.offset_buffer_extended_data ≥ 4 then
    match st.queue with
    | [] => (none, st)
    | w :: rest =>
      extract_byte
        { st with queue := rest
                  buffer_extended_data := w
                  offset_buffer_extended_data := 0
                  data_alignment := if st.data_alignment = 0 then 1 else 0 }
  else
    extract_byte st

/-- Tail of `read_two_bytes` once the word buffer holds data: snap an odd
cursor to the next half-word boundary (counting the skipped byte into
`offset_extended_data_read`), select the half-word, advance by 2. -/
def extract_short (st : EvState) : Option Nat × EvState :=
  let st1 :=
    if st.offset_buffer_extended_data = 1 then
      { st with offset_buffer_extended_data := 2
                offset_extended_data_read := (st.offset_extended_data_read + 1) % U32 }
    else st
  let v :=
    if st1.offset_buffer_extended_data = 0 then shortOne st1.buffer_extended_data
    else shortTwo st1.buffer_extended_data
  (some v,
    { st1 with offset_extended_data_read := (st1.offset_extended_data_read + 2) % U32
               offset_buffer_extended_data := st1.offset_buffer_extended_data + 2 })

/-- `read_two_bytes`: underflow check, refill when the buffer is empty or has
no full half-word left (cursor ≥ 3; a cursor exactly 3 first counts the
discarded byte), then half-word extraction. -/
def read_two_bytes (st : EvState) : Option Nat × EvState :=
  if LLEVENT_IMPL_available st < 2 then (none, st)
  else if st.offset_buffer_extended_data = -1 ∨ st.offset_buffer_extended_data ≥ 3 then
    let st1 :=
      if st.offset_buffer_extended_data = 3 then
        { st with offset_extended_data_read := (st.offset_extended_data_read + 1) % U32 }
      else st
    match st1.queue with
    | [] => (none, st1)
    | w :: rest =>
      extract_short
        { st1 with queue := rest
                   buffer_extended_data := w
                   offset_buffer_extended_data := 0
                   data_alignment := if st1.data_alignment = 0 then 1 else 0 }
  else
    extract_short st

/-- `read_four_bytes`: underflow check, count any partially consumed buffer
bytes as read and reset the buffer, then dequeue one full word. -/
def read_four_bytes (st : EvState) : Option Nat × EvState :=
  if LLEVENT_IMPL_available st < 4 then (none, st)
  else
    let st1 :=
      if st.offset_buffer_extended_data ≠ -1 ∧ st.offset_buffer_extended_data < 4 then
        { st with offset_extended_data_read :=
            (st.offset_extended_data_read + (4 - st.offset_buffer_extended_data).toNat) % U32 }
      else st
    let st2 := { st1 with buffer_extended_data := 0, offset_buffer_extended_data := -1 }
    match st2.queue with
    | [] => (none, st2)
    | w :: rest =>
      (some w,
        { st2 with queue := rest
                   offset_extended_data_read := (st2.offset_extended_data_read + 4) % U32
                   data_alignment := if st2.data_alignment = 0 then 1 else 0 })

/-- Final two dequeues of `read_eight_bytes`: the first word is stored in
`first_long_value` (low half), the second is the high half; the 64-bit result
is their little-endian combination. -/
def read_two_words (st : EvState) : Option Nat × EvState :=
  match st.queue with
  | [] => (none, st)
  | w1 :: rest1 =>
    let st1 :=
      { st with queue := rest1
                offset_extended_data_read := (st.offset_extended_data_read + 4) % U32
                first_long_value := w1 % U32
                data_alignment := if st.data_alignment = 0 then 1 else 0 }
    match st1.queue with
    | [] => (none, st1)
    | w2 :: rest2 =>
      (some (st1.first_long_value + (w2 % U32) * 4294967296),
        { st1 with queue := rest2
                   offset_extended_data_read := (st1.offset_extended_data_read + 4) % U32
                   data_alignment := if st1.data_alignment = 0 then 1 else 0 })

/-- `read_eight_bytes`: underflow check, buffer discard as in
`read_four_bytes`, one extra alignment-fixup word dequeued and dropped when
the alignment phase is not 8-byte, then the two value words. -/
def read_eight_bytes (st : EvState) : Option Nat × EvState :=
  if LLEVENT_IMPL_available st < 8 then (none, st)
  else
    let st1 :=
      if st.offset_buffer_extended_data ≠ -1 ∧ st.offset_buffer_extended_data < 4 then
        { st with offset_extended_data_read :=
            (st.offset_extended_data_read + (4 - st.offset_buffer_extended_data).toNat) % U32 }
      else st
    let st2 := { st1 with buffer_extended_data := 0, offset_buffer_extended_data := -1 }
    if st2.data_alignment ≠ 1 then
      match st2.queue with
      | [] => (none, st2)
      | _ :: rest =>
        read_two_words
          { st2 with queue := rest
                     offset_extended_data_read := (st2.offset_extended_data_read + 4) % U32
                     data_alignment := if st2.data_alignment = 0 then 1 else 0 }
    else
      read_two_words st2

/-- Loop body of `LLEVENT_IMPL_skip_bytes`: discard bytes one at a time via
`read_one_byte`, stopping (with failure) at the first pending exception. -/
def skip_loop : Nat → EvState → Bool × EvState
  | 0, st => (true, st)
  | n + 1, st =>
    match read_one_byte st with
    | (none, st1) => (false, st1)
    | (some _, st1) =>
      skip_loop n { st1 with skip_bytes_counter := st1.skip_bytes_counter + 1 }

/-- `LLEVENT_IMPL_skip_bytes`: reset the skip counter, fail fast with
`EVENT_NOK = -1` when fewer than `n` bytes are available, otherwise discard
`n` bytes one at a time (result `EVENT_OK = 0`). -/
def LLEVENT_IMPL_skip_bytes (st : EvState) (n : Nat) : Int × EvState :=
  let st0 := { st with skip_bytes_counter := 0 }
  if LLEVENT_IMPL_available st0 < n then (-1, st0)
  else
    let r := skip_loop n st0
    (if r.1 then 0 else -1, r.2)

/-- `LLEVENT_IMPL_end_read_extended_data`: drain the unread remainder
(`data_length_extended_data - offset_extended_data_read` bytes) through
`skip_bytes`, then reset the length, offset and word buffer.  Note the C code
does not touch `first_long_value` here. -/
def LLEVENT_IMPL_end_read_extended_data (st : EvState) : EvState :=
  let r := LLEVENT_IMPL_skip_bytes st
    ((st.data_length_extended_data + U32 - st.offset_extended_data_read) % U32)
  { r.2 with data_length_extended_data := 0
             offset_extended_data_read := 0
             buffer_extended_data := 0
             offset_buffer_extended_data := -1 }

/-- Modelled from the spec: the consumer-side decoding of a dequeued event
word (done by the Java `EventQueue` reader, which is not part of this
repository's sources).  The type is the 7 bits below the extended-marker
bit, the payload the low 24 bits. -/
def eventType (w : Nat) : Nat := w / 16777216 % 128

/-- Modelled from the spec: payload field of a short-event word. -/
def eventPayload (w : Nat) : Nat := w % 16777216

/-- Modelled from the spec: the extended-event marker, the top bit of a
32-bit event word. -/
def extendedBit (w : Nat) : Nat := w / 2147483648

/-- Reading `n` consecutive bytes through `read_one_byte`, collecting them;
fails if any single read fails. -/
def readBytes : Nat → EvState → Option (List Nat × EvState)
  | 0, st => some ([], st)
  | n + 1, st =>
    match read_one_byte st with
    | (none, _) => none
    | (some b, st1) =>
      match readBytes n st1 with
      | none => none
      | some (bs, st2) => some (b :: bs, st2)

/-- Byte `k` (little-endian) of a 32-bit word. -/
def wordByte (w k : Nat) : Nat := w / 256 ^ k % 256

/-- Decoder-side invariant: the state `st` is positioned to stream exactly the
byte sequence `bs`.  Either the word buffer is empty and the queue holds the
packed words of `bs`, or the buffer holds a partially consumed word whose
remaining bytes are the head of `bs` and the queue holds the rest. -/
def StreamInv (bs : List Nat) (st : EvState) : Prop :=
  st.data_length_extended_data < U32 ∧
  st.data_length_extended_data = st.offset_extended_data_read + bs.length ∧
  (∀ b ∈ bs, b < 256) ∧
  (((st.offset_buffer_extended_data = -1 ∨ st.offset_buffer_extended_data ≥ 4) ∧
      st.queue = packWords bs) ∨
    (∃ k : Nat, k < 4 ∧ st.offset_buffer_extended_data = (k : Int) ∧
      st.queue = packWords (bs.drop (4 - k)) ∧
      ∀ i : Nat, i < bs.length → i < 4 - k →
        bs.getD i 0 = wordByte st.buffer_extended_data (k + i)))

/-- Concrete run for claim C4: a 5-byte extended event, three single-byte
reads, then a two-byte read whose alignment skip crosses the declared
length. -/
def c4_mid : EvState :=
  (read_one_byte (read_one_byte (read_one_byte
    (LLEVENT_IMPL_start_read_extended_data
      (LLEVENT_IMPL_wait_event
        (LLEVENT_IMPL_offer_extended_event (initState 10) 7 [1, 2, 3, 4, 5] 5).st
        3 false).2
      5)).2).2).2

/-- Concrete run for claim C5: a 4-byte extended event, one single-byte read,
then a two-byte read starting at byte cursor 1. -/
def c5_mid : EvState :=
  (read_one_byte
    (LLEVENT_IMPL_start_read_extended_data
      (LLEVENT_IMPL_wait_event
        (LLEVENT_IMPL_offer_extended_event (initState 10) 7 [1, 2, 3, 4] 4).st
        3 false).2
      4)).2

/-- Concrete run for claim C7: an 8-byte extended event fully consumed by one
`read_long`, then `end_read_extended_data`. -/
def c7_pre : EvState :=
  (read_eight_bytes
    (LLEVENT_IMPL_start_read_extended_data
      (LLEVENT_IMPL_wait_event
        (LLEVENT_IMPL_offer_extended_event (initState 10) 7 [1, 2, 3, 4, 5, 6, 7, 8] 8).st
        3 false).2
      8)).2

/-- Concrete run for claim C8: a consumer parks on an empty one-slot queue,
then a producer offers a 4-byte extended event that is refused for lack of
capacity. -/
def c8_pre : EvState :=
  (LLEVENT_IMPL_wait_event (initState 1) 5 false).2

/-- Concrete decoder state for claim C6: mid-payload of a 12-byte extended
event, word buffer empty, alignment phase 4-byte, three words queued. -/
def c6_state : EvState :=
  { capacity := 8
    queue := [10, 20, 30]
    waiting_receive_java_thread_id := -1
    data_length_extended_data := 12
    offset_extended_data_read := 0
    buffer_extended_data := 0
    offset_buffer_extended_data := -1
    first_long_value := 0
    skip_bytes_counter := 0
    data_alignment := 0 }

/-- Concrete decoder state for the C7 witness: a fully consumed 2-byte
extended event with a stale pending long word. -/
def c7w : EvState :=
  { capacity := 3
    queue := []
    waiting_receive_java_thread_id := -1
    data_length_extended_data := 2
    offset_extended_data_read := 2
    buffer_extended_data := 0
    offset_buffer_extended_data := -1
    first_long_value := 7
    skip_bytes_counter := 0
    data_alignment := 1 }

/-! ## General helper lemmas -/

theorem lor_shiftLeft_add {k b : Nat} (a : Nat) (hb : b < 2 ^ k) :
    (a <<< k) ||| b = a * 2 ^ k + b := by
  rw [Nat.shiftLeft_eq]
  calc a * 2 ^ k ||| b = 2 ^ k * a ||| b := by rw [Nat.mul_comm]
    _ = 2 ^ k * a + b := (Nat.mul_add_lt_is_or hb a).symm
    _ = a * 2 ^ k + b := by rw [Nat.mul_comm]

theorem and_mask255 (w : Nat) : w &&& 255 = w % 256 := by
  have h : (255 : Nat) = 2 ^ 8 - 1 := by norm_num
  rw [h, Nat.and_pow_two_sub_one_eq_mod]

theorem and_mask65535 (w : Nat) : w &&& 65535 = w % 65536 := by
  have h : (65535 : Nat) = 2 ^ 16 - 1 := by norm_num
  rw [h, Nat.and_pow_two_sub_one_eq_mod]

theorem and_shiftLeft_shiftRight (w m k : Nat) :
    (w &&& (m <<< k)) >>> k = (w >>> k) &&& m := by
  apply Nat.eq_of_testBit_eq
  intro i
  simp [Nat.testBit_shiftRight, Nat.testBit_and, Nat.testBit_shiftLeft,
    Nat.le_add_right, Nat.add_sub_cancel_left]

theorem byteOne_eq (w : Nat) : byteOne w = w % 256 := by
  rw [byteOne]; exact and_mask255 w

theorem byteTwo_eq (w : Nat) : byteTwo w = w / 256 % 256 := by
  have h : (0xFF00 : Nat) = 255 <<< 8 := by decide
  rw [byteTwo, h, and_shiftLeft_shiftRight, Nat.shiftRight_eq_div_pow, and_mask255]

theorem byteThree_eq (w : Nat) : byteThree w = w / 65536 % 256 := by
  have h : (0xFF0000 : Nat) = 255 <<< 16 := by decide
  rw [byteThree, h, and_shiftLeft_shiftRight, Nat.shiftRight_eq_div_pow, and_mask255]

theorem byteFour_eq (w : Nat) : byteFour w = w / 16777216 % 256 := by
  have h : (0xFF000000 : Nat) = 255 <<< 24 := by decide
  rw [byteFour, h, and_shiftLeft_shiftRight, Nat.shiftRight_eq_div_pow, and_mask255]

theorem shortOne_eq (w : Nat) : shortOne w = w % 65536 := by
  rw [shortOne]; exact and_mask65535 w

theorem shortTwo_eq (w : Nat) : shortTwo w = w / 65536 % 65536 := by
  have h : (0xFFFF0000 : Nat) = 65535 <<< 16 := by decide
  rw [shortTwo, h, and_shiftLeft_shiftRight, Nat.shiftRight_eq_div_pow, and_mask65535]

theorem short_event_encode (ty p : Nat) (hty : ty < 128) (hp : p < 16777216) :
    ((ty <<< 24) ||| p) &&& 0x7FFFFFFF = ty * 16777216 + p := by
  have h1 : (ty <<< 24) ||| p = ty * 2 ^ 24 + p := lor_shiftLeft_add ty (by omega)
  have h2 : (0x7FFFFFFF : Nat) = 2 ^ 31 - 1 := by norm_num
  rw [h1, h2, Nat.and_pow_two_sub_one_eq_mod]
  omega

theorem packWord_lt (b0 b1 b2 b3 : Nat) : packWord b0 b1 b2 b3 < U32 := by
  simp only [packWord, U32]
  omega

theorem wordByte_zero (w : Nat) : wordByte w 0 = w % 256 := by
  simp [wordByte]

theorem wordByte_one (w : Nat) : wordByte w 1 = w / 256 % 256 := by
  simp [wordByte]

theorem wordByte_two (w : Nat) : wordByte w 2 = w / 65536 % 256 := by
  simp only [wordByte]
  norm_num

theorem wordByte_three (w : Nat) : wordByte w 3 = w / 16777216 % 256 := by
  simp only [wordByte]
  norm_num

theorem wordByte_packWord (b0 b1 b2 b3 : Nat) :
    wordByte (packWord b0 b1 b2 b3) 0 = b0 % 256 ∧
    wordByte (packWord b0 b1 b2 b3) 1 = b1 % 256 ∧
    wordByte (packWord b0 b1 b2 b3) 2 = b2 % 256 ∧
    wordByte (packWord b0 b1 b2 b3) 3 = b3 % 256 := by
  refine ⟨?_, ?_, ?_, ?_⟩
  · rw [wordByte_zero, packWord]; omega
  · rw [wordByte_one, packWord]; omega
  · rw [wordByte_two, packWord]; omega
  · rw [wordByte_three, packWord]; omega

theorem byteSel_wordByte (w : Nat) :
    byteOne w = wordByte w 0 ∧ byteTwo w = wordByte w 1 ∧
    byteThree w = wordByte w 2 ∧ byteFour w = wordByte w 3 := by
  refine ⟨?_, ?_, ?_, ?_⟩
  · rw [byteOne_eq, wordByte_zero]
  · rw [byteTwo_eq, wordByte_one]
  · rw [byteThree_eq, wordByte_two]
  · rw [byteFour_eq, wordByte_three]

theorem ceil_div4_pos_eq (n : Nat) (h : 1 ≤ n) :
    ceil_div4 n = ceil_div4 (n - 4) + 1 := by
  simp only [ceil_div4]
  omega

theorem packWords_cons (bs : List Nat) (h : bs ≠ []) :
    packWords bs =
      packWord (bs.getD 0 0) (bs.getD 1 0) (bs.getD 2 0) (bs.getD 3 0) ::
        packWords (bs.drop 4) := by
  have hpos : 1 ≤ bs.length := List.length_pos.mpr h
  have h1 : ceil_div4 bs.length = ceil_div4 ((bs.drop 4).length) + 1 := by
    simp only [List.length_drop]
    rw [ceil_div4_pos_eq _ hpos]
  simp only [packWords, h1, eventWords]

theorem available_eq (st : EvState) (L : Nat)
    (hd : st.data_length_extended_data < U32)
    (hl : st.data_length_extended_data = st.offset_extended_data_read + L) :
    LLEVENT_IMPL_available st = L := by
  simp only [LLEVENT_IMPL_available, U32] at *
  omega

theorem getD_lt_of_forall (bs : List Nat) (hbs : ∀ x ∈ bs, x < 256) :
    ∀ i : Nat, i < bs.length → bs.getD i 0 < 256 := by
  intro i hi
  rw [List.getD_eq_getElem bs 0 hi]
  exact hbs _ (List.getElem_mem hi)

theorem read_one_byte_step {b : Nat} {bs : List Nat} {st : EvState}
    (hinv : StreamInv (b :: bs) st) :
    ∃ st', read_one_byte st = (some b, st') ∧ StreamInv bs st' ∧
      st'.first_long_value = st.first_long_value := by
  obtain ⟨hd, hlen, hbytes, hbuf⟩ := hinv
  have hblt : b < 256 := hbytes b (by simp)
  have hbs : ∀ x ∈ bs, x < 256 := fun x hx => hbytes x (by simp [hx])
  have hbnd := getD_lt_of_forall bs hbs
  have hlen' : st.data_length_extended_data =
      st.offset_extended_data_read + (bs.length + 1) := by
    simpa using hlen
  have hav : LLEVENT_IMPL_available st = bs.length + 1 := available_eq st _ hd hlen'
  have havpos : ¬ LLEVENT_IMPL_available st < 1 := by omega
  have hoffm : (st.offset_extended_data_read + 1) % U32 = st.offset_extended_data_read + 1 :=
    Nat.mod_eq_of_lt (by omega)
  rcases hbuf with ⟨hcur, hq⟩ | ⟨k, hk4, hcur, hq, hB⟩
  · -- word buffer empty or exhausted: refill from the queue
    rw [packWords_cons _ (by simp)] at hq
    have g1 : (b :: bs).getD 0 0 = b := rfl
    have g2 : (b :: bs).getD 1 0 = bs.getD 0 0 := rfl
    have g3 : (b :: bs).getD 2 0 = bs.getD 1 0 := rfl
    have g4 : (b :: bs).getD 3 0 = bs.getD 2 0 := rfl
    have g5 : (b :: bs).drop 4 = bs.drop 3 := rfl
    rw [g1, g2, g3, g4, g5] at hq
    refine ⟨{ st with
        queue := packWords (bs.drop 3)
        buffer_extended_data := packWord b (bs.getD 0 0) (bs.getD 1 0) (bs.getD 2 0)
        offset_buffer_extended_data := 1
        offset_extended_data_read := st.offset_extended_data_read + 1
        data_alignment := if st.data_alignment = 0 then 1 else 0 }, ?_, ?_, ?_⟩
    · simp only [read_one_byte, if_neg havpos, if_pos hcur, hq, extract_byte]
      have hbv : byteOne (packWord b (bs.getD 0 0) (bs.getD 1 0) (bs.getD 2 0)) = b := by
        rw [(byteSel_wordByte _).1, (wordByte_packWord _ _ _ _).1, Nat.mod_eq_of_lt hblt]
      simp [hbv, hoffm, -List.getD_eq_getElem?_getD]
    · refine ⟨by simpa using hd, by simp; omega, hbs, Or.inr ⟨1, by omega, by simp, ?_, ?_⟩⟩
      · simp
      · intro i hi hi3
        simp only []
        match i, hi3 with
        | 0, _ =>
          rw [(wordByte_packWord _ _ _ _).2.1]
          rw [Nat.mod_eq_of_lt (hbnd 0 (by omega))]
        | 1, _ =>
          rw [(wordByte_packWord _ _ _ _).2.2.1, Nat.mod_eq_of_lt (hbnd 1 (by omega))]
        | 2, _ =>
          rw [(wordByte_packWord _ _ _ _).2.2.2, Nat.mod_eq_of_lt (hbnd 2 (by omega))]
    · simp
  · -- partially consumed buffered word at cursor k < 4
    have hnot : ¬ (st.offset_buffer_extended_data = -1 ∨
        st.offset_buffer_extended_data ≥ 4) := by
      rw [hcur]; push_neg; omega
    have hb0 : b = wordByte st.buffer_extended_data k := by
      have := hB 0 (by simp) (by omega)
      simpa using this
    have hsel : (if st.offset_buffer_extended_data = 0 then byteOne st.buffer_extended_data
        else if st.offset_buffer_extended_data = 1 then byteTwo st.buffer_extended_data
        else if st.offset_buffer_extended_data = 2 then byteThree st.buffer_extended_data
        else byteFour st.buffer_extended_data) = wordByte st.buffer_extended_data k := by
      match k, hk4 with
      | 0, _ => simp [hcur, (byteSel_wordByte _).1]
      | 1, _ => simp [hcur, (byteSel_wordByte _).2.1]
      | 2, _ => simp [hcur, (byteSel_wordByte _).2.2.1]
      | 3, _ => simp [hcur, (byteSel_wordByte _).2.2.2]
    refine ⟨{ st with
        offset_buffer_extended_data := st.offset_buffer_extended_data + 1
        offset_extended_data_read := st.offset_extended_data_read + 1 }, ?_, ?_, ?_⟩
    · simp only [read_one_byte, if_neg havpos, if_neg hnot, extract_byte, hsel, ← hb0]
      simp [hoffm]
    · by_cases hk3 : k = 3
      · subst hk3
        refine ⟨by simpa using hd, by simp; omega, hbs, Or.inl ⟨?_, ?_⟩⟩
        · right; simp [hcur]
        · simpa [hcur] using hq
      · refine ⟨by simpa using hd, by simp; omega, hbs,
          Or.inr ⟨k + 1, by omega, by simp [hcur], ?_, ?_⟩⟩
        · have hdrop : (4 : Nat) - k = (3 - k) + 1 := by omega
          rw [hdrop, List.drop_succ_cons] at hq
          have hdrop2 : (4 : Nat) - (k + 1) = 3 - k := by omega
          rw [hdrop2]
          simpa using hq
        · intro i hi hik
          have hB1 := hB (i + 1) (by simp; omega) (by omega)
          simp only [List.getD_cons_succ] at hB1
          rw [hB1]
          simp only []
          congr 1
          omega
    · simp

theorem readBytes_inv (bs : List Nat) : ∀ st : EvState, StreamInv bs st →
    ∃ st', readBytes bs.length st = some (bs, st') ∧ StreamInv [] st' := by
  induction bs with
  | nil => intro st h; exact ⟨st, rfl, h⟩
  | cons b bs ih =>
    intro st h
    obtain ⟨st1, h1, hinv1, -⟩ := read_one_byte_step h
    obtain ⟨st2, h2, hinv2⟩ := ih st1 hinv1
    refine ⟨st2, ?_, hinv2⟩
    simp [readBytes, h1, h2]

theorem skip_loop_inv (bs : List Nat) : ∀ st : EvState, StreamInv bs st →
    ∃ st', skip_loop bs.length st = (true, st') ∧ StreamInv [] st' ∧
      st'.first_long_value = st.first_long_value := by
  induction bs with
  | nil => intro st h; exact ⟨st, rfl, h, rfl⟩
  | cons b bs ih =>
    intro st h
    obtain ⟨st1, h1, hinv1, hfl⟩ := read_one_byte_step h
    have hinv1' : StreamInv bs
        { st1 with skip_bytes_counter := st1.skip_bytes_counter + 1 } := by
      obtain ⟨a1, a2, a3, a4⟩ := hinv1
      exact ⟨a1, a2, a3, by simpa using a4⟩
    obtain ⟨st2, h2, hinv2, hfl2⟩ := ih _ hinv1'
    refine ⟨st2, ?_, hinv2, ?_⟩
    · simp [skip_loop, h1, h2]
    · simp only [] at hfl2
      rw [hfl2, hfl]

theorem streamInv_nil_queue (st : EvState) (h : StreamInv [] st) : st.queue = [] := by
  obtain ⟨-, -, -, h4⟩ := h
  rcases h4 with ⟨-, hq⟩ | ⟨k, -, -, hq, -⟩
  · simpa [packWords, ceil_div4, eventWords] using hq
  · simpa [packWords, ceil_div4, eventWords] using hq

theorem eventWords_length (n : Nat) : ∀ data : List Nat, (eventWords n data).length = n := by
  induction n with
  | zero => intro data; rfl
  | succ n ih => intro data; simp [eventWords, ih]

theorem eventWords_lt (n : Nat) : ∀ data : List Nat, ∀ w ∈ eventWords n data, w < U32 := by
  induction n with
  | zero => intro data w hw; simp [eventWords] at hw
  | succ n ih =>
    intro data w hw
    simp only [eventWords, List.mem_cons] at hw
    rcases hw with h | h
    · rw [h]; exact packWord_lt _ _ _ _
    · exact ih _ w h

theorem sendWords_success (ws : List Nat) : ∀ (st : EvState) (ok : Bool),
    st.queue.length + ws.length ≤ st.capacity → (∀ w ∈ ws, w < U32) →
    sendWords st ws ok = (ok, { st with queue := st.queue ++ ws }) := by
  induction ws with
  | nil => intro st ok h hw; simp [sendWords]
  | cons w ws ih =>
    intro st ok h hw
    have hroom : st.queue.length < st.capacity := by
      simp only [List.length_cons] at h; omega
    have hwlt : w % U32 = w := Nat.mod_eq_of_lt (hw w (by simp))
    simp only [sendWords, tx_queue_send, if_pos hroom, hwlt]
    rw [ih]
    · simp
    · simp only [List.length_append, List.length_cons, List.length_nil] at h ⊢
      omega
    · intro x hx; exact hw x (by simp [hx])

theorem offer_extended_initState (cap ty len : Nat) (data : List Nat)
    (hcap : ceil_div4 len + 1 ≤ cap) :
    LLEVENT_IMPL_offer_extended_event (initState cap) ty data len =
      { ok := true, resumed := false,
        st := { initState cap with
          queue := ((((1 <<< 31) ||| (ty <<< 24)) ||| len) % U32) ::
            eventWords (ceil_div4 len) data } } := by
  have hfull : ¬ (initState cap).capacity - (initState cap).queue.length <
      ceil_div4 len + 1 := by
    simp [initState]; omega
  have hroom : (initState cap).queue.length < (initState cap).capacity := by
    simp [initState]; omega
  simp only [LLEVENT_IMPL_offer_extended_event, if_neg hfull, tx_queue_send, if_pos hroom]
  rw [sendWords_success]
  · simp [initState]
  · simp [initState, eventWords_length]
    omega
  · exact eventWords_lt _ data

theorem read_one_byte_advance (st : EvState) (b : Nat) (st' : EvState)
    (hoff : st.offset_extended_data_read + 1 < U32)
    (h : read_one_byte st = (some b, st')) :
    st'.offset_extended_data_read = st.offset_extended_data_read + 1 ∧
    st'.offset_buffer_extended_data =
      (if st.offset_buffer_extended_data = -1 ∨ st.offset_buffer_extended_data ≥ 4 then 0
        else st.offset_buffer_extended_data) + 1 ∧
    st'.first_long_value = st.first_long_value ∧
    st'.data_length_extended_data = st.data_length_extended_data := by
  have hmod : (st.offset_extended_data_read + 1) % U32 = st.offset_extended_data_read + 1 :=
    Nat.mod_eq_of_lt hoff
  simp only [read_one_byte] at h
  split at h
  · exact absurd h (by simp)
  · split at h
    · rename_i hcur
      match hq : st.queue with
      | [] => rw [hq] at h; exact absurd h (by simp)
      | w :: rest =>
        rw [hq] at h
        simp only [extract_byte, Prod.mk.injEq] at h
        obtain ⟨-, h2⟩ := h
        subst h2
        simp [hcur, hmod]
    · rename_i hcur
      simp only [extract_byte, Prod.mk.injEq] at h
      obtain ⟨-, h2⟩ := h
      subst h2
      simp [hcur, hmod]

theorem read_two_bytes_advance (st : EvState) (v : Nat) (st' : EvState)
    (hoff : st.offset_extended_data_read + 3 < U32)
    (h : read_two_bytes st = (some v, st')) :
    st'.offset_extended_data_read = st.offset_extended_data_read +
      (if st.offset_buffer_extended_data = 1 ∨ st.offset_buffer_extended_data = 3
        then 3 else 2) ∧
    st'.first_long_value = st.first_long_value ∧
    st'.data_length_extended_data = st.data_length_extended_data := by
  have hm1 : (st.offset_extended_data_read + 1) % U32 = st.offset_extended_data_read + 1 :=
    Nat.mod_eq_of_lt (by omega)
  have hm2 : (st.offset_extended_data_read + 2) % U32 = st.offset_extended_data_read + 2 :=
    Nat.mod_eq_of_lt (by omega)
  have hm12 : (st.offset_extended_data_read + 1 + 2) % U32 =
      st.offset_extended_data_read + 1 + 2 := Nat.mod_eq_of_lt (by omega)
  simp only [read_two_bytes] at h
  split at h
  · exact absurd h (by simp)
  · split at h
    · rename_i hcur
      by_cases hc3 : st.offset_buffer_extended_data = 3
      · simp only [if_pos hc3] at h
        match hq : st.queue with
        | [] => simp only [hq] at h; exact absurd h (by simp)
        | w :: rest =>
          simp only [hq] at h
          simp only [extract_short, Prod.mk.injEq] at h
          obtain ⟨-, h2⟩ := h
          subst h2
          simp [hc3, hm1, hm12]
      · simp only [if_neg hc3] at h
        match hq : st.queue with
        | [] => simp only [hq] at h; exact absurd h (by simp)
        | w :: rest =>
          simp only [hq] at h
          simp only [extract_short, Prod.mk.injEq] at h
          obtain ⟨-, h2⟩ := h
          subst h2
          have hne1 : ¬ st.offset_buffer_extended_data = 1 := by
            rcases hcur with hc | hc
            · omega
            · omega
          simp [hc3, hne1, hm2]
    · rename_i hcur
      simp only [extract_short, Prod.mk.injEq] at h
      push_neg at hcur
      obtain ⟨hne, hlt⟩ := hcur
      have hne3 : ¬ st.offset_buffer_extended_data = 3 := by omega
      by_cases hc1 : st.offset_buffer_extended_data = 1
      · simp only [if_pos hc1] at h
        obtain ⟨-, h2⟩ := h
        subst h2
        simp [hc1, hm1, hm12]
      · simp only [if_neg hc1] at h
        obtain ⟨-, h2⟩ := h
        subst h2
        simp [hc1, hne3, hm2]

theorem read_four_bytes_advance (st : EvState) (v : Nat) (st' : EvState)
    (hoff : st.offset_extended_data_read + 10 < U32)
    (hcur : -1 ≤ st.offset_buffer_extended_data)
    (h : read_four_bytes st = (some v, st')) :
    st'.offset_extended_data_read = st.offset_extended_data_read +
      (if st.offset_buffer_extended_data ≠ -1 ∧ st.offset_buffer_extended_data < 4
        then (4 - st.offset_buffer_extended_data).toNat else 0) + 4 ∧
    st'.first_long_value = st.first_long_value ∧
    st'.data_length_extended_data = st.data_length_extended_data := by
  have hpad : (4 - st.offset_buffer_extended_data).toNat ≤ 5 := by omega
  have hm : (st.offset_extended_data_read +
      (4 - st.offset_buffer_extended_data).toNat) % U32 =
      st.offset_extended_data_read + (4 - st.offset_buffer_extended_data).toNat :=
    Nat.mod_eq_of_lt (by omega)
  have hm2 : (st.offset_extended_data_read +
      (4 - st.offset_buffer_extended_data).toNat + 4) % U32 =
      st.offset_extended_data_read + (4 - st.offset_buffer_extended_data).toNat + 4 :=
    Nat.mod_eq_of_lt (by omega)
  have hm3 : (st.offset_extended_data_read + 4) % U32 = st.offset_extended_data_read + 4 :=
    Nat.mod_eq_of_lt (by omega)
  simp only [read_four_bytes] at h
  split at h
  · exact absurd h (by simp)
  · by_cases hb : st.offset_buffer_extended_data ≠ -1 ∧ st.offset_buffer_extended_data < 4
    · simp only [if_pos hb, hm] at h
      match hq : st.queue with
      | [] => simp only [hq] at h; exact absurd h (by simp)
      | w :: rest =>
        simp only [hq, Prod.mk.injEq] at h
        obtain ⟨-, h2⟩ := h
        subst h2
        simp [hb, hm2]
    · simp only [if_neg hb] at h
      match hq : st.queue with
      | [] => simp only [hq] at h; exact absurd h (by simp)
      | w :: rest =>
        simp only [hq, Prod.mk.injEq] at h
        obtain ⟨-, h2⟩ := h
        subst h2
        simp [hb, hm3]

theorem read_two_words_run (st : EvState) (v : Nat) (st' : EvState)
    (hoff : st.offset_extended_data_read + 8 < U32)
    (h : read_two_words st = (some v, st')) :
    st'.offset_extended_data_read = st.offset_extended_data_read + 8 ∧
    st'.data_length_extended_data = st.data_length_extended_data := by
  simp only [read_two_words] at h
  match hq : st.queue with
  | [] => simp only [hq] at h; exact absurd h (by simp)
  | w1 :: rest1 =>
    simp only [hq] at h
    match hr : rest1 with
    | [] => simp only [hr] at h; exact absurd h (by simp)
    | w2 :: rest2 =>
      simp only [hr, Prod.mk.injEq] at h
      obtain ⟨-, h2⟩ := h
      subst h2
      have hm1 : (st.offset_extended_data_read + 4) % U32 = st.offset_extended_data_read + 4 :=
        Nat.mod_eq_of_lt (by omega)
      have hm2 : (st.offset_extended_data_read + 4 + 4) % U32 =
          st.offset_extended_data_read + 4 + 4 := Nat.mod_eq_of_lt (by omega)
      simp [hm1, hm2]

theorem read_eight_bytes_advance (st : EvState) (v : Nat) (st' : EvState)
    (hoff : st.offset_extended_data_read + 20 < U32)
    (hcur : -1 ≤ st.offset_buffer_extended_data)
    (h : read_eight_bytes st = (some v, st')) :
    st'.offset_extended_data_read = st.offset_extended_data_read +
      (if st.offset_buffer_extended_data ≠ -1 ∧ st.offset_buffer_extended_data < 4
        then (4 - st.offset_buffer_extended_data).toNat else 0) +
      (if st.data_alignment ≠ 1 then 4 else 0) + 8 ∧
    st'.data_length_extended_data = st.data_length_extended_data := by
  have hpad : (4 - st.offset_buffer_extended_data).toNat ≤ 5 := by omega
  have hm : (st.offset_extended_data_read +
      (4 - st.offset_buffer_extended_data).toNat) % U32 =
      st.offset_extended_data_read + (4 - st.offset_buffer_extended_data).toNat :=
    Nat.mod_eq_of_lt (by omega)
  have hm2 : (st.offset_extended_data_read +
      (4 - st.offset_buffer_extended_data).toNat + 4) % U32 =
      st.offset_extended_data_read + (4 - st.offset_buffer_extended_data).toNat + 4 :=
    Nat.mod_eq_of_lt (by omega)
  have hm3 : (st.offset_extended_data_read + 4) % U32 = st.offset_extended_data_read + 4 :=
    Nat.mod_eq_of_lt (by omega)
  simp only [read_eight_bytes] at h
  split at h
  · exact absurd h (by simp)
  · by_cases hb : st.offset_buffer_extended_data ≠ -1 ∧ st.offset_buffer_extended_data < 4
    · simp only [if_pos hb, hm] at h
      by_cases ha : st.data_alignment = 1
      · have ha' : ¬ st.data_alignment ≠ 1 := by simp [ha]
        simp only [if_neg ha'] at h
        obtain ⟨ho, hd⟩ := read_two_words_run _ _ _ (by simp; omega) h
        simp only at ho hd
        simp [hb, ha, ho, hd]
      · have ha' : st.data_alignment ≠ 1 := ha
        simp only [if_pos ha'] at h
        match hq : st.queue with
        | [] => simp only [hq] at h; exact absurd h (by simp)
        | w0 :: rest0 =>
          simp only [hq, hm2] at h
          obtain ⟨ho, hd⟩ := read_two_words_run _ _ _ (by simp; omega) h
          simp only at ho hd
          rw [ho, hd]
          simp [hb, ha']
    · simp only [if_neg hb] at h
      by_cases ha : st.data_alignment = 1
      · have ha' : ¬ st.data_alignment ≠ 1 := by simp [ha]
        simp only [if_neg ha'] at h
        obtain ⟨ho, hd⟩ := read_two_words_run _ _ _ (by simp; omega) h
        simp only at ho hd
        simp [hb, ha, ho, hd]
      · have ha' : st.data_alignment ≠ 1 := ha
        simp only [if_pos ha'] at h
        match hq : st.queue with
        | [] => simp only [hq] at h; exact absurd h (by simp)
        | w0 :: rest0 =>
          simp only [hq, hm3] at h
          obtain ⟨ho, hd⟩ := read_two_words_run _ _ _ (by simp; omega) h
          simp only at ho hd
          rw [ho, hd]
          simp [hb, ha']

/-! ## Claim C1 -/

/-- Claim C1 (confirmed): byte-stream round-trip.  Any non-empty byte
sequence of length below 2^24, offered through `offer_extended_event` into a
queue with room and accepted, is returned byte for byte, in order, by `len`
successful `read_byte` calls after the header has been consumed by
`wait_event` and `start_read_extended_data(len)` was issued — each queue
word yielding its least-significant byte first, matching the producer's
little-endian packing. -/
theorem C1_byte_roundtrip (data : List Nat) (ty cap : Nat) (tid : Int)
    (hbytes : ∀ b ∈ data, b < 256) (_hne : data ≠ [])
    (hlen : data.length < 16777216)
    (hcap : ceil_div4 data.length + 1 ≤ cap) :
    (LLEVENT_IMPL_offer_extended_event (initState cap) ty data data.length).ok = true ∧
    ∃ w st1 st2,
      LLEVENT_IMPL_wait_event
        (LLEVENT_IMPL_offer_extended_event (initState cap) ty data data.length).st
        tid false = (some w, st1) ∧
      readBytes data.length
        (LLEVENT_IMPL_start_read_extended_data st1 data.length) = some (data, st2) := by
  have hlu : data.length < U32 := by simp only [U32]; omega
  have hmod : data.length % U32 = data.length := Nat.mod_eq_of_lt hlu
  rw [offer_extended_initState cap ty data.length data hcap]
  have hinv : StreamInv data (LLEVENT_IMPL_start_read_extended_data
      { initState cap with
          queue := eventWords (ceil_div4 data.length) data
          waiting_receive_java_thread_id := -1 } data.length) := by
    refine ⟨?_, ?_, hbytes, Or.inl ⟨?_, ?_⟩⟩
    · simp [LLEVENT_IMPL_start_read_extended_data, hmod, hlu]
    · simp [LLEVENT_IMPL_start_read_extended_data, hmod]
    · simp [LLEVENT_IMPL_start_read_extended_data, initState]
    · simp [LLEVENT_IMPL_start_read_extended_data, initState, packWords]
  obtain ⟨st2, hrb, -⟩ := readBytes_inv data _ hinv
  refine ⟨rfl, (((1 <<< 31) ||| (ty <<< 24)) ||| data.length) % U32,
    { initState cap with
        queue := eventWords (ceil_div4 data.length) data
        waiting_receive_java_thread_id := -1 }, st2, ?_, hrb⟩
  simp [LLEVENT_IMPL_wait_event]

/-- Witness for C1 at a concrete input. -/
theorem C1_byte_roundtrip_witness :
    ((∀ b ∈ [1, 2, 3, 4, 5], b < 256) ∧ ([1, 2, 3, 4, 5] : List Nat) ≠ [] ∧
      ([1, 2, 3, 4, 5] : List Nat).length < 16777216 ∧
      ceil_div4 ([1, 2, 3, 4, 5] : List Nat).length + 1 ≤ 10) ∧
    ((LLEVENT_IMPL_offer_extended_event (initState 10) 7 [1, 2, 3, 4, 5]
        ([1, 2, 3, 4, 5] : List Nat).length).ok = true ∧
      ∃ w st1 st2,
        LLEVENT_IMPL_wait_event
          (LLEVENT_IMPL_offer_extended_event (initState 10) 7 [1, 2, 3, 4, 5]
            ([1, 2, 3, 4, 5] : List Nat).length).st 3 false = (some w, st1) ∧
        readBytes ([1, 2, 3, 4, 5] : List Nat).length
          (LLEVENT_IMPL_start_read_extended_data st1 ([1, 2, 3, 4, 5] : List Nat).length)
          = some ([1, 2, 3, 4, 5], st2)) :=
  ⟨⟨by decide, by decide, by decide, by decide⟩,
    C1_byte_roundtrip [1, 2, 3, 4, 5] 7 10 3 (by decide) (by decide) (by decide) (by decide)⟩

/-! ## Claim C7 -/

/-- Counterexample for claim C7 as frozen: after an 8-byte extended event is
read as one long, `first_long_value` holds the low word `0x04030201`;
`end_read_extended_data` leaves it untouched instead of resetting it to its
initial value 0. -/
theorem C7_counterexample :
    c7_pre.first_long_value = 67305985 ∧
    (LLEVENT_IMPL_end_read_extended_data c7_pre).first_long_value = 67305985 ∧
    (initState 10).first_long_value = 0 ∧
    ¬ (LLEVENT_IMPL_end_read_extended_data c7_pre).first_long_value = 0 := by decide

/-- Claim C7 (amended): `end_read_extended_data` drains every unread byte of
the current extended event (leaving the queue empty when the event's bytes
were the only content), resets the word buffer, byte cursor, declared length
and read offset — but `first_long_value` is left unchanged, not reset (it is
overwritten before each use by `read_eight_bytes`). -/
theorem C7_end_read_reset (bs : List Nat) (st : EvState) (h : StreamInv bs st) :
    (LLEVENT_IMPL_end_read_extended_data st).queue = [] ∧
    (LLEVENT_IMPL_end_read_extended_data st).buffer_extended_data = 0 ∧
    (LLEVENT_IMPL_end_read_extended_data st).offset_buffer_extended_data = -1 ∧
    (LLEVENT_IMPL_end_read_extended_data st).data_length_extended_data = 0 ∧
    (LLEVENT_IMPL_end_read_extended_data st).offset_extended_data_read = 0 ∧
    (LLEVENT_IMPL_end_read_extended_data st).first_long_value = st.first_long_value := by
  obtain ⟨hd, hlen, hbytes, hbuf⟩ := h
  have hav : (st.data_length_extended_data + U32 - st.offset_extended_data_read) % U32 =
      bs.length := by
    have := available_eq st bs.length hd hlen
    simpa [LLEVENT_IMPL_available] using this
  have hinv0 : StreamInv bs { st with skip_bytes_counter := 0 } :=
    ⟨hd, hlen, hbytes, by simpa using hbuf⟩
  have hav0 : ¬ LLEVENT_IMPL_available { st with skip_bytes_counter := 0 } < bs.length := by
    have h2 : LLEVENT_IMPL_available { st with skip_bytes_counter := 0 } = bs.length := by
      simpa [LLEVENT_IMPL_available] using hav
    omega
  obtain ⟨stf, hloop, hinvf, hfl⟩ := skip_loop_inv bs _ hinv0
  have hqf : stf.queue = [] := streamInv_nil_queue stf hinvf
  simp only [LLEVENT_IMPL_end_read_extended_data, LLEVENT_IMPL_skip_bytes, hav]
  rw [if_neg hav0]
  simp only [] at hfl
  simp [hloop, hqf, hfl]

/-- Witness for the amended C7 at a concrete input. -/
theorem C7_end_read_reset_witness :
    StreamInv [] c7w ∧
    ((LLEVENT_IMPL_end_read_extended_data c7w).queue = [] ∧
      (LLEVENT_IMPL_end_read_extended_data c7w).buffer_extended_data = 0 ∧
      (LLEVENT_IMPL_end_read_extended_data c7w).offset_buffer_extended_data = -1 ∧
      (LLEVENT_IMPL_end_read_extended_data c7w).data_length_extended_data = 0 ∧
      (LLEVENT_IMPL_end_read_extended_data c7w).offset_extended_data_read = 0 ∧
      (LLEVENT_IMPL_end_read_extended_data c7w).first_long_value = c7w.first_long_value) :=
  have hterm : StreamInv [] c7w :=
    ⟨by decide, by decide, by decide, Or.inl ⟨Or.inl rfl, by decide⟩⟩
  ⟨hterm, C7_end_read_reset [] c7w hterm⟩

/-! ## Claim C2 -/

/-- Claim C2 (confirmed): short-event round-trip.  For every `type` in
`0..127` and `payload` in `0..2^24-1`, `offer_event` enqueues the single word
`(type << 24) | payload` with the extended-marker bit clear, and a single
dequeue of that word decodes back to exactly `(type, payload)`. -/
theorem C2_short_event_roundtrip (st : EvState) (ty p : Nat) (tid : Int)
    (hty : ty < 128) (hp : p < 16777216)
    (hq : st.queue = []) (hcap : 0 < st.capacity)
    (hw : st.waiting_receive_java_thread_id = -1) :
    ∃ w st1,
      (LLEVENT_IMPL_offer_event st ty p).ok = true ∧
      LLEVENT_IMPL_wait_event (LLEVENT_IMPL_offer_event st ty p).st tid false =
        (some w, st1) ∧
      w = ((ty <<< 24) ||| p) &&& 0x7FFFFFFF ∧
      eventType w = ty ∧ eventPayload w = p ∧ extendedBit w = 0 := by
  have henc := short_event_encode ty p hty hp
  have hlt : ((ty <<< 24) ||| p) &&& 0x7FFFFFFF < U32 := by
    rw [henc, U32]; omega
  have hofer : LLEVENT_IMPL_offer_event st ty p =
      { ok := true, resumed := false,
        st := { st with queue := [((ty <<< 24) ||| p) &&& 0x7FFFFFFF] } } := by
    simp [LLEVENT_IMPL_offer_event, tx_queue_send, hq, hcap, hw, Nat.mod_eq_of_lt hlt]
  refine ⟨((ty <<< 24) ||| p) &&& 0x7FFFFFFF,
    { st with queue := [], waiting_receive_java_thread_id := -1 }, ?_, ?_, rfl, ?_, ?_, ?_⟩
  · rw [hofer]
  · rw [hofer]
    simp [LLEVENT_IMPL_wait_event]
  · rw [henc, eventType]; omega
  · rw [henc, eventPayload]; omega
  · rw [henc, extendedBit]; omega

/-- Witness for C2 at a concrete input. -/
theorem C2_short_event_roundtrip_witness :
    ((5 : Nat) < 128 ∧ (65538 : Nat) < 16777216 ∧ (initState 4).queue = [] ∧
      0 < (initState 4).capacity ∧ (initState 4).waiting_receive_java_thread_id = -1) ∧
    ∃ w st1,
      (LLEVENT_IMPL_offer_event (initState 4) 5 65538).ok = true ∧
      LLEVENT_IMPL_wait_event (LLEVENT_IMPL_offer_event (initState 4) 5 65538).st 3 false =
        (some w, st1) ∧
      w = ((5 <<< 24) ||| 65538) &&& 0x7FFFFFFF ∧
      eventType w = 5 ∧ eventPayload w = 65538 ∧ extendedBit w = 0 :=
  ⟨by decide,
    C2_short_event_roundtrip (initState 4) 5 65538 3 (by decide) (by decide)
      (by decide) (by decide) (by decide)⟩

/-! ## Claim C3 -/

/-- Claim C3 (confirmed): all-or-nothing admission.  When the queue's free
space is smaller than `ceil(len/4) + 1` words, `offer_extended_event`
returns failure and the queue contents are untouched. -/
theorem C3_all_or_nothing (st : EvState) (ty len : Nat) (data : List Nat)
    (h : st.capacity - st.queue.length < ceil_div4 len + 1) :
    (LLEVENT_IMPL_offer_extended_event st ty data len).ok = false ∧
    (LLEVENT_IMPL_offer_extended_event st ty data len).st.queue = st.queue := by
  simp only [LLEVENT_IMPL_offer_extended_event, if_pos h]
  repeat' split
  all_goals simp_all

/-- Witness for C3 at a concrete input. -/
theorem C3_all_or_nothing_witness :
    ((initState 2).capacity - (initState 2).queue.length < ceil_div4 8 + 1) ∧
    ((LLEVENT_IMPL_offer_extended_event (initState 2) 7 [1, 2, 3, 4, 5, 6, 7, 8] 8).ok
        = false ∧
      (LLEVENT_IMPL_offer_extended_event (initState 2) 7 [1, 2, 3, 4, 5, 6, 7, 8] 8).st.queue
        = (initState 2).queue) :=
  ⟨by decide, C3_all_or_nothing (initState 2) 7 8 [1, 2, 3, 4, 5, 6, 7, 8] (by decide)⟩

/-! ## Claim C9 -/

/-- Claim C9 (confirmed): `skip_bytes` underflow atomicity.  When `n`
exceeds `available()`, the call returns the error code `-1` and leaves the
queue, the read bookkeeping, the word buffer, the byte cursor, the alignment
phase and the pending long word exactly as they were. -/
theorem C9_skip_bytes_atomic (st : EvState) (n : Nat)
    (h : LLEVENT_IMPL_available st < n) :
    (LLEVENT_IMPL_skip_bytes st n).1 = -1 ∧
    (LLEVENT_IMPL_skip_bytes st n).2.queue = st.queue ∧
    (LLEVENT_IMPL_skip_bytes st n).2.data_length_extended_data =
      st.data_length_extended_data ∧
    (LLEVENT_IMPL_skip_bytes st n).2.offset_extended_data_read =
      st.offset_extended_data_read ∧
    LLEVENT_IMPL_available (LLEVENT_IMPL_skip_bytes st n).2 =
      LLEVENT_IMPL_available st ∧
    (LLEVENT_IMPL_skip_bytes st n).2.buffer_extended_data = st.buffer_extended_data ∧
    (LLEVENT_IMPL_skip_bytes st n).2.offset_buffer_extended_data =
      st.offset_buffer_extended_data ∧
    (LLEVENT_IMPL_skip_bytes st n).2.data_alignment = st.data_alignment ∧
    (LLEVENT_IMPL_skip_bytes st n).2.first_long_value = st.first_long_value := by
  have h0 : LLEVENT_IMPL_available { st with skip_bytes_counter := 0 } < n := by
    simpa [LLEVENT_IMPL_available] using h
  simp only [LLEVENT_IMPL_skip_bytes]
  rw [if_pos h0]
  simp [LLEVENT_IMPL_available]

/-- Witness for C9 at a concrete input. -/
theorem C9_skip_bytes_atomic_witness :
    (LLEVENT_IMPL_available (initState 4) < 3) ∧
    ((LLEVENT_IMPL_skip_bytes (initState 4) 3).1 = -1 ∧
      (LLEVENT_IMPL_skip_bytes (initState 4) 3).2.queue = (initState 4).queue ∧
      (LLEVENT_IMPL_skip_bytes (initState 4) 3).2.data_length_extended_data =
        (initState 4).data_length_extended_data ∧
      (LLEVENT_IMPL_skip_bytes (initState 4) 3).2.offset_extended_data_read =
        (initState 4).offset_extended_data_read ∧
      LLEVENT_IMPL_available (LLEVENT_IMPL_skip_bytes (initState 4) 3).2 =
        LLEVENT_IMPL_available (initState 4) ∧
      (LLEVENT_IMPL_skip_bytes (initState 4) 3).2.buffer_extended_data =
        (initState 4).buffer_extended_data ∧
      (LLEVENT_IMPL_skip_bytes (initState 4) 3).2.offset_buffer_extended_data =
        (initState 4).offset_buffer_extended_data ∧
      (LLEVENT_IMPL_skip_bytes (initState 4) 3).2.data_alignment =
        (initState 4).data_alignment ∧
      (LLEVENT_IMPL_skip_bytes (initState 4) 3).2.first_long_value =
        (initState 4).first_long_value) :=
  ⟨by decide, C9_skip_bytes_atomic (initState 4) 3 (by decide)⟩

theorem sendWords_waiting (ws : List Nat) : ∀ (st : EvState) (ok : Bool),
    (sendWords st ws ok).2.waiting_receive_java_thread_id =
      st.waiting_receive_java_thread_id := by
  induction ws with
  | nil => intro st ok; rfl
  | cons w ws ih =>
    intro st ok
    simp only [sendWords]
    rw [ih]
    simp only [tx_queue_send]
    split <;> rfl

theorem offer_extended_wake (st : EvState) (ty len : Nat) (data : List Nat) :
    ((LLEVENT_IMPL_offer_extended_event st ty data len).resumed = true ↔
      st.waiting_receive_java_thread_id ≠ -1) ∧
    (st.waiting_receive_java_thread_id ≠ -1 →
      (LLEVENT_IMPL_offer_extended_event st ty data len).st.waiting_receive_java_thread_id
        = -1) := by
  by_cases hfull : st.capacity - st.queue.length < ceil_div4 len + 1
  · simp only [LLEVENT_IMPL_offer_extended_event, if_pos hfull]
    repeat' split
    all_goals simp_all
  · by_cases hroom : st.queue.length < st.capacity
    · simp [LLEVENT_IMPL_offer_extended_event, if_neg hfull, tx_queue_send, if_pos hroom,
        sendWords_waiting]
      repeat' split
      all_goals simp_all
    · simp [LLEVENT_IMPL_offer_extended_event, if_neg hfull, tx_queue_send, if_neg hroom]
      repeat' split
      all_goals simp_all

/-! ## Claim C4 -/

/-- Counterexample for claim C4 as frozen: after a 5-byte extended event,
three single-byte reads and one two-byte read all succeed, yet
`offset_extended_data_read` ends at 6, exceeding
`data_length_extended_data = 5`, and `available()` wraps around to
`2^32 - 1` (it increases instead of decreasing). -/
theorem C4_counterexample :
    (read_two_bytes c4_mid).1.isSome = true ∧
    c4_mid.data_length_extended_data = 5 ∧
    c4_mid.offset_extended_data_read = 3 ∧
    LLEVENT_IMPL_available c4_mid = 2 ∧
    (read_two_bytes c4_mid).2.data_length_extended_data = 5 ∧
    (read_two_bytes c4_mid).2.offset_extended_data_read = 6 ∧
    LLEVENT_IMPL_available (read_two_bytes c4_mid).2 = 4294967295 := by decide

/-- Claim C4 (amended): every successful typed read strictly increases
`offset_extended_data_read` (so `available` computed without wraparound
strictly decreases); but `offset_extended_data_read` can exceed
`data_length_extended_data` when an alignment skip crosses the declared
length, in which case the `uint32_t` difference `available()` wraps. -/
theorem C4_available_progress (st : EvState)
    (hoff : st.offset_extended_data_read + 20 < U32)
    (hcur : -1 ≤ st.offset_buffer_extended_data) :
    (∀ b st', read_one_byte st = (some b, st') →
      st.offset_extended_data_read < st'.offset_extended_data_read) ∧
    (∀ v st', read_two_bytes st = (some v, st') →
      st.offset_extended_data_read < st'.offset_extended_data_read) ∧
    (∀ v st', read_four_bytes st = (some v, st') →
      st.offset_extended_data_read < st'.offset_extended_data_read) ∧
    (∀ v st', read_eight_bytes st = (some v, st') →
      st.offset_extended_data_read < st'.offset_extended_data_read) := by
  refine ⟨?_, ?_, ?_, ?_⟩
  · intro b st' h
    obtain ⟨ho, -, -, -⟩ := read_one_byte_advance st b st' (by omega) h
    omega
  · intro v st' h
    obtain ⟨ho, -, -⟩ := read_two_bytes_advance st v st' (by omega) h
    rw [ho]; split <;> omega
  · intro v st' h
    obtain ⟨ho, -, -⟩ := read_four_bytes_advance st v st' (by omega) hcur h
    rw [ho]; split <;> omega
  · intro v st' h
    obtain ⟨ho, -⟩ := read_eight_bytes_advance st v st' hoff hcur h
    rw [ho]; split <;> split <;> omega

/-- Witness for the amended C4 at a concrete input. -/
theorem C4_available_progress_witness :
    ((initState 4).offset_extended_data_read + 20 < U32 ∧
      -1 ≤ (initState 4).offset_buffer_extended_data) ∧
    ((∀ b st', read_one_byte (initState 4) = (some b, st') →
        (initState 4).offset_extended_data_read < st'.offset_extended_data_read) ∧
      (∀ v st', read_two_bytes (initState 4) = (some v, st') →
        (initState 4).offset_extended_data_read < st'.offset_extended_data_read) ∧
      (∀ v st', read_four_bytes (initState 4) = (some v, st') →
        (initState 4).offset_extended_data_read < st'.offset_extended_data_read) ∧
      (∀ v st', read_eight_bytes (initState 4) = (some v, st') →
        (initState 4).offset_extended_data_read < st'.offset_extended_data_read)) :=
  ⟨⟨by decide, by decide⟩, C4_available_progress (initState 4) (by decide) (by decide)⟩

/-! ## Claim C5 -/

/-- Counterexample for claim C5 as frozen: after one `read_byte` of a 4-byte
event the byte cursor is 1; the following successful `read_short` advances
`offset_extended_data_read` by 3 (one alignment byte plus the two data
bytes), not by exactly 2 as the claim states. -/
theorem C5_counterexample :
    c5_mid.offset_extended_data_read = 1 ∧
    c5_mid.offset_buffer_extended_data = 1 ∧
    (read_two_bytes c5_mid).1 = some 1027 ∧
    (read_two_bytes c5_mid).2.offset_extended_data_read = 4 ∧
    ¬ (read_two_bytes c5_mid).2.offset_extended_data_read =
      c5_mid.offset_extended_data_read + 2 := by decide

/-- Claim C5 (amended): a successful `read_byte` advances `bytes_consumed`
and the byte cursor by exactly 1; a successful `read_short`/`read_char`
advances `bytes_consumed` by exactly 2 when the byte cursor is 2-byte
aligned (buffer empty, 0, 2 or exhausted) and by 3 when the cursor is at 1
or 3 (one alignment byte is also consumed). -/
theorem C5_read_advance (st : EvState)
    (hoff : st.offset_extended_data_read + 3 < U32) :
    (∀ b st', read_one_byte st = (some b, st') →
      st'.offset_extended_data_read = st.offset_extended_data_read + 1 ∧
      st'.offset_buffer_extended_data =
        (if st.offset_buffer_extended_data = -1 ∨ st.offset_buffer_extended_data ≥ 4
          then 0 else st.offset_buffer_extended_data) + 1) ∧
    (∀ v st', read_two_bytes st = (some v, st') →
      st'.offset_extended_data_read = st.offset_extended_data_read +
        (if st.offset_buffer_extended_data = 1 ∨ st.offset_buffer_extended_data = 3
          then 3 else 2)) := by
  refine ⟨?_, ?_⟩
  · intro b st' h
    obtain ⟨ho, hc, -, -⟩ := read_one_byte_advance st b st' (by omega) h
    exact ⟨ho, hc⟩
  · intro v st' h
    obtain ⟨ho, -, -⟩ := read_two_bytes_advance st v st' hoff h
    exact ho

/-- Witness for the amended C5 at a concrete input. -/
theorem C5_read_advance_witness :
    ((initState 4).offset_extended_data_read + 3 < U32) ∧
    ((∀ b st', read_one_byte (initState 4) = (some b, st') →
        st'.offset_extended_data_read = (initState 4).offset_extended_data_read + 1 ∧
        st'.offset_buffer_extended_data =
          (if (initState 4).offset_buffer_extended_data = -1 ∨
              (initState 4).offset_buffer_extended_data ≥ 4
            then 0 else (initState 4).offset_buffer_extended_data) + 1) ∧
      (∀ v st', read_two_bytes (initState 4) = (some v, st') →
        st'.offset_extended_data_read = (initState 4).offset_extended_data_read +
          (if (initState 4).offset_buffer_extended_data = 1 ∨
              (initState 4).offset_buffer_extended_data = 3
            then 3 else 2))) :=
  ⟨by decide, C5_read_advance (initState 4) (by decide)⟩

/-! ## Claim C6 -/

/-- Claim C6 (confirmed): when the alignment phase is 4-byte (not 8-byte) at
the start of a successful `read_long`/`read_double`, exactly one extra word
(`a`) is dequeued and discarded before the two value words `b`, `c`; the
fixup contributes 4 to `offset_extended_data_read` (the total advance is the
buffer discard plus `4 + 8`) and nothing to the returned 64-bit value, which
is `b + c * 2^32` — low half from the first value word. -/
theorem C6_alignment_fixup (st : EvState) (a b c : Nat) (rest : List Nat)
    (hq : st.queue = a :: b :: c :: rest)
    (halign : st.data_alignment = 0)
    (hcur : -1 ≤ st.offset_buffer_extended_data)
    (hav : ¬ LLEVENT_IMPL_available st < 8)
    (hoff : st.offset_extended_data_read + 20 < U32)
    (hbw : b < U32) (hcw : c < U32) :
    read_eight_bytes st = (some (b + c * 4294967296),
      { st with
          queue := rest
          offset_extended_data_read := st.offset_extended_data_read +
            (if st.offset_buffer_extended_data ≠ -1 ∧ st.offset_buffer_extended_data < 4
              then (4 - st.offset_buffer_extended_data).toNat else 0) + 4 + 8
          buffer_extended_data := 0
          offset_buffer_extended_data := -1
          first_long_value := b
          data_alignment := 1 }) := by
  have ha' : st.data_alignment ≠ 1 := by simp [halign]
  have hpadn : (4 - st.offset_buffer_extended_data).toNat ≤ 5 := by omega
  have hm : (st.offset_extended_data_read +
      (4 - st.offset_buffer_extended_data).toNat) % U32 =
      st.offset_extended_data_read + (4 - st.offset_buffer_extended_data).toNat :=
    Nat.mod_eq_of_lt (by omega)
  by_cases hbC : st.offset_buffer_extended_data ≠ -1 ∧ st.offset_buffer_extended_data < 4
  · have hm2 : (st.offset_extended_data_read +
        (4 - st.offset_buffer_extended_data).toNat + 4) % U32 =
        st.offset_extended_data_read + (4 - st.offset_buffer_extended_data).toNat + 4 :=
      Nat.mod_eq_of_lt (by omega)
    have hm3 : (st.offset_extended_data_read +
        (4 - st.offset_buffer_extended_data).toNat + 4 + 4) % U32 =
        st.offset_extended_data_read + (4 - st.offset_buffer_extended_data).toNat + 4 + 4 :=
      Nat.mod_eq_of_lt (by omega)
    have hm4 : (st.offset_extended_data_read +
        (4 - st.offset_buffer_extended_data).toNat + 4 + 4 + 4) % U32 =
        st.offset_extended_data_read + (4 - st.offset_buffer_extended_data).toNat + 4 + 4 + 4 :=
      Nat.mod_eq_of_lt (by omega)
    simp only [read_eight_bytes, if_neg hav, if_pos hbC, hm, if_pos ha', hq,
      read_two_words, hm2, hm3, hm4, halign]
    simp [hbC, Nat.mod_eq_of_lt hbw, Nat.mod_eq_of_lt hcw]
  · have hm2 : (st.offset_extended_data_read + 4) % U32 =
        st.offset_extended_data_read + 4 := Nat.mod_eq_of_lt (by omega)
    have hm3 : (st.offset_extended_data_read + 4 + 4) % U32 =
        st.offset_extended_data_read + 4 + 4 := Nat.mod_eq_of_lt (by omega)
    have hm4 : (st.offset_extended_data_read + 4 + 4 + 4) % U32 =
        st.offset_extended_data_read + 4 + 4 + 4 := Nat.mod_eq_of_lt (by omega)
    simp only [read_eight_bytes, if_neg hav, if_neg hbC, if_pos ha', hq,
      read_two_words, hm2, hm3, hm4, halign]
    simp [hbC, Nat.mod_eq_of_lt hbw, Nat.mod_eq_of_lt hcw]

/-- Witness for C6 at a concrete input. -/
theorem C6_alignment_fixup_witness :
    (c6_state.queue = 10 :: 20 :: 30 :: [] ∧ c6_state.data_alignment = 0 ∧
      -1 ≤ c6_state.offset_buffer_extended_data ∧
      ¬ LLEVENT_IMPL_available c6_state < 8 ∧
      c6_state.offset_extended_data_read + 20 < U32 ∧ (20 : Nat) < U32 ∧ (30 : Nat) < U32) ∧
    read_eight_bytes c6_state = (some (20 + 30 * 4294967296),
      { c6_state with
          queue := []
          offset_extended_data_read := c6_state.offset_extended_data_read +
            (if c6_state.offset_buffer_extended_data ≠ -1 ∧
                c6_state.offset_buffer_extended_data < 4
              then (4 - c6_state.offset_buffer_extended_data).toNat else 0) + 4 + 8
          buffer_extended_data := 0
          offset_buffer_extended_data := -1
          first_long_value := 20
          data_alignment := 1 }) :=
  ⟨by decide,
    C6_alignment_fixup c6_state 10 20 30 [] (by decide) (by decide) (by decide)
      (by decide) (by decide) (by decide) (by decide)⟩

/-! ## Claim C8 -/

/-- Counterexample for claim C8 as frozen: with a consumer parked (slot = 5)
and a full queue, `offer_extended_event` fails (`ok = false`, nothing
enqueued) yet still resumes the parked consumer and clears the slot. -/
theorem C8_counterexample :
    c8_pre.waiting_receive_java_thread_id = 5 ∧
    (LLEVENT_IMPL_offer_extended_event c8_pre 1 [9, 9, 9, 9] 4).ok = false ∧
    (LLEVENT_IMPL_offer_extended_event c8_pre 1 [9, 9, 9, 9] 4).st.queue = [] ∧
    (LLEVENT_IMPL_offer_extended_event c8_pre 1 [9, 9, 9, 9] 4).resumed = true ∧
    (LLEVENT_IMPL_offer_extended_event c8_pre 1 [9, 9, 9, 9] 4).st.waiting_receive_java_thread_id
      = -1 := by decide

/-- Claim C8 (amended): `offer_event` resumes the parked consumer only on a
successful enqueue (a failed call leaves the slot untouched), but
`offer_extended_event` resumes the parked consumer whenever one is
registered, regardless of success, clearing the slot. -/
theorem C8_wake_semantics (st : EvState) (ty d len : Nat) (data : List Nat) :
    ((LLEVENT_IMPL_offer_event st ty d).ok = false →
      (LLEVENT_IMPL_offer_event st ty d).resumed = false ∧
      (LLEVENT_IMPL_offer_event st ty d).st.waiting_receive_java_thread_id =
        st.waiting_receive_java_thread_id) ∧
    ((LLEVENT_IMPL_offer_extended_event st ty data len).resumed = true ↔
      st.waiting_receive_java_thread_id ≠ -1) ∧
    (st.waiting_receive_java_thread_id ≠ -1 →
      (LLEVENT_IMPL_offer_extended_event st ty data len).st.waiting_receive_java_thread_id
        = -1) := by
  have htw : ∀ w, (tx_queue_send st w).2.waiting_receive_java_thread_id =
      st.waiting_receive_java_thread_id := by
    intro w; simp only [tx_queue_send]; split <;> rfl
  refine ⟨?_, ?_, ?_⟩
  · intro hok
    simp only [LLEVENT_IMPL_offer_event] at hok ⊢
    split at hok
    · rename_i hcond
      simp only at hok
      rw [hok] at hcond
      exact absurd hcond.2 (by simp)
    · rename_i hcond
      rw [if_neg hcond]
      exact ⟨rfl, htw _⟩
  · exact (offer_extended_wake st ty len data).1
  · exact (offer_extended_wake st ty len data).2

/-- Witness for the amended C8 at a concrete input. -/
theorem C8_wake_semantics_witness :
    ((LLEVENT_IMPL_offer_event (initState 0) 1 2).ok = false) ∧
    ((LLEVENT_IMPL_offer_event (initState 0) 1 2).resumed = false ∧
      (LLEVENT_IMPL_offer_event (initState 0) 1 2).st.waiting_receive_java_thread_id =
        (initState 0).waiting_receive_java_thread_id) ∧
    ((LLEVENT_IMPL_offer_extended_event (initState 0) 1 [1] 1).resumed = true ↔
      (initState 0).waiting_receive_java_thread_id ≠ -1) :=
  ⟨by decide, (C8_wake_semantics (initState 0) 1 2 1 [1]).1 (by decide),
    (C8_wake_semantics (initState 0) 1 2 1 [1]).2.1⟩

/-! ## Claim C10 -/

/-- Claim C10 (confirmed): when `wait_event` finds the queue empty and the
suspend primitive reports an error, it clears the parked-waiter slot and
returns the zero word, which decodes to type 0, payload 0. -/
theorem C10_wait_event_suspend_failure (st : EvState) (tid : Int)
    (h : st.queue = []) :
    LLEVENT_IMPL_wait_event st tid true =
      (some 0, { st with waiting_receive_java_thread_id := -1 }) ∧
    eventType 0 = 0 ∧ eventPayload 0 = 0 ∧ extendedBit 0 = 0 := by
  refine ⟨?_, by decide, by decide, by decide⟩
  simp [LLEVENT_IMPL_wait_event, h]

/-- Witness for C10 at a concrete input. -/
theorem C10_wait_event_suspend_failure_witness :
    ((initState 4).queue = []) ∧
    (LLEVENT_IMPL_wait_event (initState 4) 3 true =
        (some 0, { initState 4 with waiting_receive_java_thread_id := -1 }) ∧
      eventType 0 = 0 ∧ eventPayload 0 = 0 ∧ extendedBit 0 = 0) :=
  ⟨by decide, C10_wait_event_suspend_failure (initState 4) 3 (by decide)⟩

end LLEvent
